import Mathlib

/-!
# LinearElasticityModelCache: the strain cache update

A shallow embedding of `multibody/fem/dev/linear_elasticity_model_cache.cc`.

* The template parameter `T` of the class is a type variable carrying field
  arithmetic.  Scalar arithmetic is exact: the literal `0.5` is the field
  element one half.  Rounding of machine floating point is not part of the
  model.
* `Matrix3<T>` is a 3 by 3 matrix over `T`; `transpose()`, `trace()` and
  `Identity()` are the matrix transpose, the matrix trace and the unit matrix.
* `std::vector` is a list.  `operator[]` does no range check in the source and
  an access outside the range is undefined behaviour there; the definitions
  mark such an access by the error result, and the theorems below are about
  runs in which every access is in range.
-/

namespace drake
namespace multibody
namespace fem

/-- The scalar matrix type `Matrix3<T>`. -/
abbrev Matrix3 (T : Type) : Type := Matrix (Fin 3) (Fin 3) T

/-- Modelled from the spec: the class declaration (the header
`linear_elasticity_model_cache.h` and its base class) is absent; the three
members are the ones the update reads and writes.  `num_quads` is the
quadrature-point count the accessor `num_quads()` returns (an `int`),
`strain_` holds one strain tensor per quadrature point and `trace_strain_` one
trace per quadrature point. -/
structure LinearElasticityModelCache (T : Type) where
  num_quads : Int
  strain_ : List (Matrix3 T)
  trace_strain_ : List T

namespace LinearElasticityModelCache

variable {T : Type}

/-- The body of the `for` loop of `DoUpdateCache` at loop index `i`:
`strain_[i] = 0.5 * (F[i] + F[i].transpose()) - Matrix3<T>::Identity();`
`trace_strain_[i] = strain_[i].trace();`
The second statement reads the strain back from the storage the first one
wrote.  An index outside `F`, `strain_` or `trace_strain_` is undefined
behaviour in the source; here it is marked by the `error` result, and nothing
is stated about what the compiled program does after such an access. -/
def DoUpdateCache.body [Field T] (F : List (Matrix3 T))
    (c : LinearElasticityModelCache T) (i : Nat) :
    Except (LinearElasticityModelCache T) (LinearElasticityModelCache T) :=
  match F[i]? with
  | none => .error c
  | some Fi =>
    if i < c.strain_.length then
      let c1 : LinearElasticityModelCache T :=
        { c with strain_ := c.strain_.set i ((0.5 : T) • (Fi + Fi.transpose) - 1) }
      match c1.strain_[i]? with
      | none => .error c1
      | some Ei =>
        if i < c1.trace_strain_.length then
          .ok { c1 with trace_strain_ := c1.trace_strain_.set i Ei.trace }
        else .error c1
    else .error c

/-- The loop `for (int i = 0; i < this->num_quads(); ++i) { body }`, entered at
index `i`: the guard `i < num_quads()` is read from the cache at every
iteration, the body runs, and the loop goes on at `i + 1`.  An error of the
body ends the loop.  The loop terminates because the body leaves `num_quads`
as it is, so `num_quads - i` decreases. -/
def DoUpdateCache.loop [Field T] (F : List (Matrix3 T)) (i : Nat)
    (c : LinearElasticityModelCache T) :
    Except (LinearElasticityModelCache T) (LinearElasticityModelCache T) :=
  if (i : Int) < c.num_quads then
    match h : DoUpdateCache.body F c i with
    | .ok c1 => DoUpdateCache.loop F (i + 1) c1
    | .error c1 => .error c1
  else .ok c
termination_by (c.num_quads - (i : Int)).toNat
decreasing_by
  have hq : c1.num_quads = c.num_quads := by
    simp only [DoUpdateCache.body] at h
    split at h
    · cases h
    · split at h
      · split at h
        · cases h
        · split at h
          · cases h
            rfl
          · cases h
      · cases h
  rw [hq]
  omega

/-- The same loop with a record of its iterations: beside the result it
returns the loop indices at which the body was entered, in order.  The control
flow is that of `DoUpdateCache.loop`, guard and body included. -/
def DoUpdateCache.loopTrace [Field T] (F : List (Matrix3 T)) (i : Nat)
    (c : LinearElasticityModelCache T) :
    List Nat × Except (LinearElasticityModelCache T) (LinearElasticityModelCache T) :=
  if (i : Int) < c.num_quads then
    match h : DoUpdateCache.body F c i with
    | .ok c1 => (i :: (DoUpdateCache.loopTrace F (i + 1) c1).1,
        (DoUpdateCache.loopTrace F (i + 1) c1).2)
    | .error c1 => ([i], .error c1)
  else ([], .ok c)
termination_by (c.num_quads - (i : Int)).toNat
decreasing_by
  all_goals
    have hq : c1.num_quads = c.num_quads := by
      simp only [DoUpdateCache.body] at h
      split at h
      · cases h
      · split at h
        · split at h
          · cases h
          · split at h
            · cases h
              rfl
            · cases h
        · cases h
    rw [hq]
    omega

/-- `LinearElasticityModelCache<T>::DoUpdateCache(F)`: the loop entered at
index `0`. -/
def DoUpdateCache [Field T] (F : List (Matrix3 T)) (c : LinearElasticityModelCache T) :
    Except (LinearElasticityModelCache T) (LinearElasticityModelCache T) :=
  DoUpdateCache.loop F 0 c

end LinearElasticityModelCache

open LinearElasticityModelCache

/-- A cache of two quadrature points over the rationals that holds arbitrary
earlier contents (its stored strains are not symmetric and its stored traces
are unrelated to them). -/
def sampleCache : LinearElasticityModelCache ℚ :=
  { num_quads := 2
    strain_ := [!![7, 8, 9; 1, 2, 3; 4, 5, 6], 0]
    trace_strain_ := [5, -1] }

/-- A second cache of two quadrature points, with other earlier contents than
`sampleCache`. -/
def sampleCache2 : LinearElasticityModelCache ℚ :=
  { num_quads := 2
    strain_ := [1, !![0, 1, 0; 0, 0, 0; 0, 0, 0]]
    trace_strain_ := [0, 42] }

/-- A cache of one quadrature point over the rationals, holding zeros. -/
def sampleCache1 : LinearElasticityModelCache ℚ :=
  { num_quads := 1
    strain_ := [0]
    trace_strain_ := [0] }

/-- Two deformation gradients, the first one not symmetric. -/
def sampleF : List (Matrix3 ℚ) :=
  [!![1, 2, 3; 4, 5, 6; 7, 8, 10], !![1.1, 0, 0; 0, 1, 0; 0, 0, 1]]

/-- The sample input with another matrix at index `0` and the same matrix at
index `1`. -/
def sampleG : List (Matrix3 ℚ) :=
  [!![2, 0, 1; 0, 3, 0; 5, 0, 1], !![1.1, 0, 0; 0, 1, 0; 0, 0, 1]]

/-- Two skew-symmetric matrices. -/
def sampleW : List (Matrix3 ℚ) :=
  [!![0, 2, -3; -2, 0, 5; 3, -5, 0], 0]

variable {T : Type}

/-! ## The loop on inputs that keep every access in range -/

/-- One iteration with all three accesses in range: the strain is stored and
the trace of that stored strain is stored. -/
theorem body_in_range [Field T] (F : List (Matrix3 T)) (c : LinearElasticityModelCache T)
    (i : Nat) (Fi : Matrix3 T) (hF : F[i]? = some Fi) (hs : i < c.strain_.length)
    (ht : i < c.trace_strain_.length) :
    DoUpdateCache.body F c i = .ok
      { num_quads := c.num_quads
        strain_ := c.strain_.set i ((0.5 : T) • (Fi + Fi.transpose) - 1)
        trace_strain_ :=
          c.trace_strain_.set i ((0.5 : T) • (Fi + Fi.transpose) - 1).trace } := by
  simp [DoUpdateCache.body, hF, hs, ht]

/-- The loop leaves when the guard `i < num_quads()` fails. -/
theorem loop_exit [Field T] (F : List (Matrix3 T)) (i : Nat)
    (c : LinearElasticityModelCache T) (hg : ¬ (i : Int) < c.num_quads) :
    DoUpdateCache.loop F i c = .ok c := by
  rw [DoUpdateCache.loop, if_neg hg]

/-- The loop goes on at `i + 1` when the guard holds and the body succeeds. -/
theorem loop_step [Field T] (F : List (Matrix3 T)) (i : Nat)
    (c c1 : LinearElasticityModelCache T) (hg : (i : Int) < c.num_quads)
    (hb : DoUpdateCache.body F c i = .ok c1) :
    DoUpdateCache.loop F i c = DoUpdateCache.loop F (i + 1) c1 := by
  rw [DoUpdateCache.loop, if_pos hg]
  split
  · rename_i c2 h2
    rw [hb] at h2
    cases h2
    rfl
  · rename_i c2 h2
    rw [hb] at h2
    cases h2

/-- The loop ends in the error of the body when the guard holds and the body
fails. -/
theorem loop_step_error [Field T] (F : List (Matrix3 T)) (i : Nat)
    (c e : LinearElasticityModelCache T) (hg : (i : Int) < c.num_quads)
    (hb : DoUpdateCache.body F c i = .error e) :
    DoUpdateCache.loop F i c = .error e := by
  rw [DoUpdateCache.loop, if_pos hg]
  split
  · rename_i c2 h2
    rw [hb] at h2
    cases h2
  · rename_i c2 h2
    rw [hb] at h2
    cases h2
    rfl

/-- The body leaves the quadrature-point count as it is. -/
theorem body_num_quads [Field T] (F : List (Matrix3 T)) (i : Nat)
    (c c1 : LinearElasticityModelCache T) (hb : DoUpdateCache.body F c i = .ok c1) :
    c1.num_quads = c.num_quads := by
  simp only [DoUpdateCache.body] at hb
  split at hb
  · cases hb
  · split at hb
    · split at hb
      · cases hb
      · split at hb
        · cases hb
          rfl
        · cases hb
    · cases hb

/-- The body succeeds exactly when its three accesses are in range. -/
theorem body_ok_iff [Field T] (F : List (Matrix3 T)) (i : Nat)
    (c : LinearElasticityModelCache T) :
    (∃ c1, DoUpdateCache.body F c i = .ok c1) ↔
      i < F.length ∧ i < c.strain_.length ∧ i < c.trace_strain_.length := by
  constructor
  · rintro ⟨c1, hb⟩
    simp only [DoUpdateCache.body] at hb
    split at hb
    · cases hb
    · rename_i Fi hFi
      have h1 : i < F.length := (List.getElem?_eq_some.mp hFi).1
      split at hb
      · rename_i hs
        split at hb
        · cases hb
        · split at hb
          · rename_i ht
            exact ⟨h1, hs, ht⟩
          · cases hb
      · cases hb
  · rintro ⟨h1, h2, h3⟩
    exact ⟨_, body_in_range F c i F[i] (List.getElem?_eq_getElem h1) h2 h3⟩

/-- The recording loop leaves with an empty record when the guard fails. -/
theorem loopTrace_exit [Field T] (F : List (Matrix3 T)) (i : Nat)
    (c : LinearElasticityModelCache T) (hg : ¬ (i : Int) < c.num_quads) :
    DoUpdateCache.loopTrace F i c = ([], .ok c) := by
  rw [DoUpdateCache.loopTrace, if_neg hg]

/-- The recording loop records `i` and goes on at `i + 1` when the guard holds
and the body succeeds. -/
theorem loopTrace_step [Field T] (F : List (Matrix3 T)) (i : Nat)
    (c c1 : LinearElasticityModelCache T) (hg : (i : Int) < c.num_quads)
    (hb : DoUpdateCache.body F c i = .ok c1) :
    DoUpdateCache.loopTrace F i c
      = (i :: (DoUpdateCache.loopTrace F (i + 1) c1).1,
          (DoUpdateCache.loopTrace F (i + 1) c1).2) := by
  rw [DoUpdateCache.loopTrace, if_pos hg]
  split
  · rename_i c2 h2
    rw [hb] at h2
    cases h2
    rfl
  · rename_i c2 h2
    rw [hb] at h2
    cases h2

/-- The recording loop records `i` and ends in the error of the body when the
guard holds and the body fails. -/
theorem loopTrace_step_error [Field T] (F : List (Matrix3 T)) (i : Nat)
    (c e : LinearElasticityModelCache T) (hg : (i : Int) < c.num_quads)
    (hb : DoUpdateCache.body F c i = .error e) :
    DoUpdateCache.loopTrace F i c = ([i], .error e) := by
  rw [DoUpdateCache.loopTrace, if_pos hg]
  split
  · rename_i c2 h2
    rw [hb] at h2
    cases h2
  · rename_i c2 h2
    rw [hb] at h2
    cases h2
    rfl

/-- The recording loop computes the result of the loop, on every input. -/
theorem loopTrace_result [Field T] (F : List (Matrix3 T)) :
    ∀ (m i : Nat) (c : LinearElasticityModelCache T),
      (c.num_quads - (i : Int)).toNat = m →
      (DoUpdateCache.loopTrace F i c).2 = DoUpdateCache.loop F i c := by
  intro m
  induction m with
  | zero =>
    intro i c hm
    have hg : ¬ (i : Int) < c.num_quads := by omega
    rw [loopTrace_exit F i c hg, loop_exit F i c hg]
  | succ m ih =>
    intro i c hm
    have hg : (i : Int) < c.num_quads := by omega
    cases hb : DoUpdateCache.body F c i with
    | error e =>
      rw [loopTrace_step_error F i c e hg hb, loop_step_error F i c e hg hb]
    | ok c1 =>
      have hq := body_num_quads F i c c1 hb
      rw [loopTrace_step F i c c1 hg hb, loop_step F i c c1 hg hb]
      exact ih (i + 1) c1 (by rw [hq]; omega)

/-- The recording loop entered at index `i` with `k` iterations to run, all of
them in range, records exactly the indices `i, i + 1, ..., i + k - 1`. -/
theorem loopTrace_in_range [Field T] (F : List (Matrix3 T)) :
    ∀ (k i : Nat) (c : LinearElasticityModelCache T),
      c.num_quads = ((i + k : Nat) : Int) →
      i + k ≤ F.length → i + k ≤ c.strain_.length → i + k ≤ c.trace_strain_.length →
      (DoUpdateCache.loopTrace F i c).1 = List.range' i k := by
  intro k
  induction k with
  | zero =>
    intro i c hq _ _ _
    rw [loopTrace_exit F i c (by omega)]
    rfl
  | succ k ih =>
    intro i c hq hF hs ht
    have hFi : F[i]? = some F[i] := List.getElem?_eq_getElem (by omega)
    have hb := body_in_range F c i F[i] hFi (by omega) (by omega)
    rw [loopTrace_step F i c _ (by omega) hb, List.range'_succ]
    simp only
    rw [ih (i + 1) _ (by simp only [hq]; omega) (by omega)
      (by simp only [List.length_set]; omega) (by simp only [List.length_set]; omega)]

/-- The loop entered at index `i` with `k` iterations to run, all of them in
range: it completes, keeps the count and the lengths, and rewrites exactly the
entries `i ≤ j < i + k`. -/
theorem loop_in_range [Field T] (F : List (Matrix3 T)) :
    ∀ (k i : Nat) (c : LinearElasticityModelCache T),
      c.num_quads = ((i + k : Nat) : Int) →
      i + k ≤ F.length → i + k ≤ c.strain_.length → i + k ≤ c.trace_strain_.length →
      ∃ c1, DoUpdateCache.loop F i c = .ok c1 ∧ c1.num_quads = c.num_quads ∧
        c1.strain_.length = c.strain_.length ∧
        c1.trace_strain_.length = c.trace_strain_.length ∧
        (∀ j, c1.strain_[j]? = if i ≤ j ∧ j < i + k
          then (F[j]?).map (fun M => (0.5 : T) • (M + M.transpose) - 1)
          else c.strain_[j]?) ∧
        (∀ j, c1.trace_strain_[j]? = if i ≤ j ∧ j < i + k
          then (F[j]?).map (fun M => ((0.5 : T) • (M + M.transpose) - 1).trace)
          else c.trace_strain_[j]?) := by
  intro k
  induction k with
  | zero =>
    intro i c hq _ _ _
    refine ⟨c, loop_exit F i c (by omega), rfl, rfl, rfl, ?_, ?_⟩ <;> intro j <;>
      simp only [Nat.add_zero] <;> rw [if_neg (by omega)]
  | succ k ih =>
    intro i c hq hF hs ht
    have hi : i < F.length := by omega
    have hFi : F[i]? = some F[i] := List.getElem?_eq_getElem hi
    have hb := body_in_range F c i F[i] hFi (by omega) (by omega)
    obtain ⟨c1, h1, hn, hls, hlt, hS, hT⟩ :=
      ih (i + 1)
        { num_quads := c.num_quads
          strain_ := c.strain_.set i ((0.5 : T) • (F[i] + F[i].transpose) - 1)
          trace_strain_ :=
            c.trace_strain_.set i ((0.5 : T) • (F[i] + F[i].transpose) - 1).trace }
        (by simp only [hq]; omega)
        (by omega) (by simp only [List.length_set]; omega)
        (by simp only [List.length_set]; omega)
    simp only [List.length_set] at hls hlt
    refine ⟨c1, ?_, hn, hls, hlt, ?_, ?_⟩
    · rw [loop_step F i c _ (by omega) hb]
      exact h1
    · intro j
      rw [hS j]
      by_cases h1 : i + 1 ≤ j ∧ j < i + 1 + k
      · rw [if_pos h1, if_pos (by omega)]
      · rw [if_neg h1]
        by_cases h2 : i = j
        · subst h2
          rw [if_pos (by omega), hFi, List.getElem?_set, if_pos rfl, if_pos (by omega)]
          rfl
        · rw [if_neg (by omega), List.getElem?_set, if_neg h2]
    · intro j
      rw [hT j]
      by_cases h1 : i + 1 ≤ j ∧ j < i + 1 + k
      · rw [if_pos h1, if_pos (by omega)]
      · rw [if_neg h1]
        by_cases h2 : i = j
        · subst h2
          rw [if_pos (by omega), hFi, List.getElem?_set, if_pos rfl, if_pos (by omega)]
          rfl
        · rw [if_neg (by omega), List.getElem?_set, if_neg h2]

/-- Closed form of the update on a cache whose two arrays have the length of
the quadrature-point count and an input at least that long: the update
completes and both arrays are the images of the first `n` input matrices. -/
theorem DoUpdateCache_closed_form [Field T] (F : List (Matrix3 T))
    (c : LinearElasticityModelCache T) (n : Nat) (hn : c.num_quads = (n : Int))
    (hs : c.strain_.length = n) (ht : c.trace_strain_.length = n) (hF : n ≤ F.length) :
    DoUpdateCache F c = .ok
      { num_quads := c.num_quads
        strain_ := (F.take n).map (fun M => (0.5 : T) • (M + M.transpose) - 1)
        trace_strain_ :=
          (F.take n).map (fun M => ((0.5 : T) • (M + M.transpose) - 1).trace) } := by
  obtain ⟨c1, h1, hq, hls, hlt, hS, hT⟩ :=
    loop_in_range F n 0 c (by rw [hn, Nat.zero_add]) (by omega) (by omega) (by omega)
  unfold DoUpdateCache
  rw [h1]
  congr 1
  cases c1 with
  | mk q s t =>
    simp only at hq hls hlt hS hT
    subst hq
    congr 1
    · apply List.ext_getElem?
      intro j
      rw [hS j, List.getElem?_map, List.getElem?_take]
      by_cases hj : j < n
      · simp [hj]
      · simp only [hj, Nat.zero_le, Nat.zero_add, and_false, if_false, Option.map_none']
        exact List.getElem?_eq_none (by omega)
    · apply List.ext_getElem?
      intro j
      rw [hT j, List.getElem?_map, List.getElem?_take]
      by_cases hj : j < n
      · simp [hj]
      · simp only [hj, Nat.zero_le, Nat.zero_add, and_false, if_false, Option.map_none']
        exact List.getElem?_eq_none (by omega)

/-- The update on a cache of the right sizes and an input of the right length:
it completes, and both arrays are the images of the input. -/
theorem DoUpdateCache_valid [Field T] (F : List (Matrix3 T))
    (c : LinearElasticityModelCache T) (n : Nat) (hn : c.num_quads = (n : Int))
    (hs : c.strain_.length = n) (ht : c.trace_strain_.length = n) (hF : F.length = n) :
    DoUpdateCache F c = .ok
      { num_quads := c.num_quads
        strain_ := F.map (fun M => (0.5 : T) • (M + M.transpose) - 1)
        trace_strain_ := F.map (fun M => ((0.5 : T) • (M + M.transpose) - 1).trace) } := by
  have h := DoUpdateCache_closed_form F c n hn hs ht (by omega)
  rwa [List.take_of_length_le (by omega)] at h

/-- The literal `0.5` is one half in every field. -/
theorem half_eq [Field T] : (0.5 : T) = 1 / 2 := by
  have h : (0.5 : ℚ) = 1 / 2 := by norm_num
  have hnum : (1 / 2 : ℚ).num = 1 := by norm_num
  have hden : (1 / 2 : ℚ).den = 2 := by norm_num
  rw [← Rat.cast_ofScientific, h, Rat.cast_def, hnum, hden]
  simp

/-- Entries of the stored strain expression. -/
theorem strain_entry [Field T] (M : Matrix3 T) (r k : Fin 3) :
    ((0.5 : T) • (M + M.transpose) - 1) r k
      = (M r k + M k r) / 2 - (if r = k then 1 else 0) := by
  simp only [Matrix.sub_apply, Matrix.smul_apply, Matrix.add_apply, Matrix.transpose_apply,
    Matrix.one_apply, smul_eq_mul, half_eq]
  ring

/-- The matrices of `sampleW` are skew-symmetric. -/
theorem sampleW_skew : ∀ M, M ∈ sampleW → M.transpose = -M := by
  intro M hM
  simp only [sampleW, List.mem_cons, List.mem_singleton, List.not_mem_nil, or_false] at hM
  rcases hM with h | h
  · subst h
    ext r k
    fin_cases r <;> fin_cases k <;> simp
  · subst h
    simp

/-! ## The claims -/

/-- C1. For a cache with quadrature-point count `n` whose strain and trace
storage have length `n`, and every input `F` of length `n`, the update
completes and the strain cached at every index `i < n` is
`0.5 * (F[i] + transpose(F[i])) - Identity`, entrywise
`(F[i](r,k) + F[i](k,r)) / 2 - (1 if r = k else 0)`. -/
theorem C1_strain_formula [Field T] (n : Nat) (c : LinearElasticityModelCache T)
    (F : List (Matrix3 T)) (hn : c.num_quads = (n : Int)) (hs : c.strain_.length = n)
    (ht : c.trace_strain_.length = n) (hF : F.length = n) :
    ∃ c1, DoUpdateCache F c = .ok c1 ∧
      ∀ i, i < n → ∃ Fi E, F[i]? = some Fi ∧ c1.strain_[i]? = some E ∧
        E = (0.5 : T) • (Fi + Fi.transpose) - 1 ∧
        ∀ r k : Fin 3, E r k = (Fi r k + Fi k r) / 2 - (if r = k then 1 else 0) := by
  refine ⟨_, DoUpdateCache_valid F c n hn hs ht hF, ?_⟩
  intro i hi
  have hFi : F[i]? = some F[i] := List.getElem?_eq_getElem (by omega)
  refine ⟨F[i], _, hFi, ?_, rfl, fun r k => strain_entry F[i] r k⟩
  simp only [List.getElem?_map, hFi, Option.map_some']

/-- Witness of C1 at the two-point sample cache and the sample input. -/
theorem C1_strain_formula_witness :
    (sampleCache.num_quads = ((2 : Nat) : Int) ∧ sampleCache.strain_.length = 2 ∧
      sampleCache.trace_strain_.length = 2 ∧ sampleF.length = 2) ∧
    ∃ c1, DoUpdateCache sampleF sampleCache = .ok c1 ∧
      ∀ i, i < 2 → ∃ Fi E, sampleF[i]? = some Fi ∧ c1.strain_[i]? = some E ∧
        E = (0.5 : ℚ) • (Fi + Fi.transpose) - 1 ∧
        ∀ r k : Fin 3, E r k = (Fi r k + Fi k r) / 2 - (if r = k then 1 else 0) :=
  ⟨⟨rfl, rfl, rfl, rfl⟩, C1_strain_formula 2 sampleCache sampleF rfl rfl rfl rfl⟩

/-- C2. After a valid update the trace cached at every index `i < n` is the
sum of the three diagonal entries of the strain cached at the same index by
that same update. -/
theorem C2_trace_of_updated_strain [Field T] (n : Nat) (c : LinearElasticityModelCache T)
    (F : List (Matrix3 T)) (hn : c.num_quads = (n : Int)) (hs : c.strain_.length = n)
    (ht : c.trace_strain_.length = n) (hF : F.length = n) :
    ∃ c1, DoUpdateCache F c = .ok c1 ∧
      ∀ i, i < n → ∃ E t, c1.strain_[i]? = some E ∧ c1.trace_strain_[i]? = some t ∧
        t = E 0 0 + E 1 1 + E 2 2 := by
  refine ⟨_, DoUpdateCache_valid F c n hn hs ht hF, ?_⟩
  intro i hi
  have hFi : F[i]? = some F[i] := List.getElem?_eq_getElem (by omega)
  refine ⟨(0.5 : T) • (F[i] + F[i].transpose) - 1,
    ((0.5 : T) • (F[i] + F[i].transpose) - 1).trace, ?_, ?_, ?_⟩
  · simp only [List.getElem?_map, hFi, Option.map_some']
  · simp only [List.getElem?_map, hFi, Option.map_some']
  · rw [Matrix.trace, Fin.sum_univ_three]
    rfl

/-- Witness of C2 at the sample cache, whose earlier traces and strains
disagree. -/
theorem C2_trace_of_updated_strain_witness :
    (sampleCache.num_quads = ((2 : Nat) : Int) ∧ sampleCache.strain_.length = 2 ∧
      sampleCache.trace_strain_.length = 2 ∧ sampleF.length = 2) ∧
    ∃ c1, DoUpdateCache sampleF sampleCache = .ok c1 ∧
      ∀ i, i < 2 → ∃ E t, c1.strain_[i]? = some E ∧ c1.trace_strain_[i]? = some t ∧
        t = E 0 0 + E 1 1 + E 2 2 :=
  ⟨⟨rfl, rfl, rfl, rfl⟩, C2_trace_of_updated_strain 2 sampleCache sampleF rfl rfl rfl rfl⟩

/-- C3. After the update every cached strain is symmetric, for arbitrary (not
necessarily symmetric) deformation gradients and arbitrary earlier cache
contents. -/
theorem C3_strain_symmetric [Field T] (n : Nat) (c : LinearElasticityModelCache T)
    (F : List (Matrix3 T)) (hn : c.num_quads = (n : Int)) (hs : c.strain_.length = n)
    (ht : c.trace_strain_.length = n) (hF : F.length = n) :
    ∃ c1, DoUpdateCache F c = .ok c1 ∧
      ∀ i, i < n → ∃ E, c1.strain_[i]? = some E ∧ E.transpose = E := by
  refine ⟨_, DoUpdateCache_valid F c n hn hs ht hF, ?_⟩
  intro i hi
  have hFi : F[i]? = some F[i] := List.getElem?_eq_getElem (by omega)
  refine ⟨(0.5 : T) • (F[i] + F[i].transpose) - 1, ?_, ?_⟩
  · simp only [List.getElem?_map, hFi, Option.map_some']
  · ext r k
    rw [Matrix.transpose_apply, strain_entry, strain_entry, add_comm (F[i] k r)]
    by_cases h : r = k
    · subst h; rfl
    · rw [if_neg h, if_neg (fun h1 => h h1.symm)]

/-- Witness of C3 at the sample cache, whose earlier strain is not symmetric,
and the sample input, whose first matrix is not symmetric. -/
theorem C3_strain_symmetric_witness :
    (sampleCache.num_quads = ((2 : Nat) : Int) ∧ sampleCache.strain_.length = 2 ∧
      sampleCache.trace_strain_.length = 2 ∧ sampleF.length = 2) ∧
    ∃ c1, DoUpdateCache sampleF sampleCache = .ok c1 ∧
      ∀ i, i < 2 → ∃ E, c1.strain_[i]? = some E ∧ E.transpose = E :=
  ⟨⟨rfl, rfl, rfl, rfl⟩, C3_strain_symmetric 2 sampleCache sampleF rfl rfl rfl rfl⟩

/-- C4. If every input matrix is the identity, the update stores the zero
matrix as every strain and `0` as every trace. -/
theorem C4_identity_gives_zero [Field T] [CharZero T] (n : Nat)
    (c : LinearElasticityModelCache T) (F : List (Matrix3 T))
    (hn : c.num_quads = (n : Int)) (hs : c.strain_.length = n)
    (ht : c.trace_strain_.length = n) (hF : F.length = n)
    (hI : ∀ i, i < n → F[i]? = some 1) :
    ∃ c1, DoUpdateCache F c = .ok c1 ∧
      ∀ i, i < n → c1.strain_[i]? = some 0 ∧ c1.trace_strain_[i]? = some 0 := by
  refine ⟨_, DoUpdateCache_valid F c n hn hs ht hF, ?_⟩
  intro i hi
  have hz : (0.5 : T) • ((1 : Matrix3 T) + (1 : Matrix3 T).transpose) - 1 = 0 := by
    ext r k
    rw [strain_entry, Matrix.one_apply, Matrix.one_apply, Matrix.zero_apply]
    by_cases h : r = k
    · subst h
      rw [if_pos rfl]
      norm_num
    · rw [if_neg h, if_neg (fun h1 => h h1.symm)]
      norm_num
  constructor
  · simp only [List.getElem?_map, hI i hi, Option.map_some', hz]
  · simp only [List.getElem?_map, hI i hi, Option.map_some', hz, Matrix.trace_zero]

/-- Witness of C4 over the rationals: the sample cache and two identity
matrices. -/
theorem C4_identity_gives_zero_witness :
    (sampleCache.num_quads = ((2 : Nat) : Int) ∧ sampleCache.strain_.length = 2 ∧
      sampleCache.trace_strain_.length = 2 ∧ ([1, 1] : List (Matrix3 ℚ)).length = 2 ∧
      ∀ i, i < 2 → ([1, 1] : List (Matrix3 ℚ))[i]? = some 1) ∧
    ∃ c1, DoUpdateCache ([1, 1] : List (Matrix3 ℚ)) sampleCache = .ok c1 ∧
      ∀ i, i < 2 → c1.strain_[i]? = some 0 ∧ c1.trace_strain_[i]? = some 0 :=
  ⟨⟨rfl, rfl, rfl, rfl, fun i hi => by interval_cases i <;> rfl⟩,
    C4_identity_gives_zero 2 sampleCache [1, 1] rfl rfl rfl rfl
      (fun i hi => by interval_cases i <;> rfl)⟩

/-- C5. The update preserves the sizes: on a cache whose two arrays have the
length of the quadrature-point count `n` and a valid input, the update
completes and afterwards both arrays still have length `n` and the count is
still `n`. -/
theorem C5_sizes_preserved [Field T] (n : Nat) (c : LinearElasticityModelCache T)
    (F : List (Matrix3 T)) (hn : c.num_quads = (n : Int)) (hs : c.strain_.length = n)
    (ht : c.trace_strain_.length = n) (hF : F.length = n) :
    ∃ c1, DoUpdateCache F c = .ok c1 ∧ c1.strain_.length = n ∧
      c1.trace_strain_.length = n ∧ c1.num_quads = (n : Int) := by
  refine ⟨_, DoUpdateCache_valid F c n hn hs ht hF, ?_, ?_, hn⟩
  · simp only [List.length_map, hF]
  · simp only [List.length_map, hF]

/-- Witness of C5 at the sample cache and the sample input. -/
theorem C5_sizes_preserved_witness :
    (sampleCache.num_quads = ((2 : Nat) : Int) ∧ sampleCache.strain_.length = 2 ∧
      sampleCache.trace_strain_.length = 2 ∧ sampleF.length = 2) ∧
    ∃ c1, DoUpdateCache sampleF sampleCache = .ok c1 ∧ c1.strain_.length = 2 ∧
      c1.trace_strain_.length = 2 ∧ c1.num_quads = ((2 : Nat) : Int) :=
  ⟨⟨rfl, rfl, rfl, rfl⟩, C5_sizes_preserved 2 sampleCache sampleF rfl rfl rfl rfl⟩

/-- C6, counterexample.  The one-point cache receives an input of length two.
The update neither fails nor leaves the cache alone: it completes normally,
having stored the strain and the trace of the first matrix over the earlier
contents. -/
theorem C6_counterexample :
    sampleCache1.num_quads = 1 ∧ sampleCache1.strain_.length = 1 ∧
    sampleCache1.trace_strain_.length = 1 ∧ sampleF.length ≠ 1 ∧
    ∃ c1, DoUpdateCache sampleF sampleCache1 = .ok c1 ∧
      c1.strain_ = [!![0, 3, 5; 3, 4, 7; 5, 7, 9]] ∧ c1.trace_strain_ = [13] ∧
      c1.strain_ ≠ sampleCache1.strain_ ∧
      c1.trace_strain_ ≠ sampleCache1.trace_strain_ := by
  have hE : (0.5 : ℚ) • ((!![1, 2, 3; 4, 5, 6; 7, 8, 10] : Matrix3 ℚ)
      + (!![1, 2, 3; 4, 5, 6; 7, 8, 10] : Matrix3 ℚ).transpose) - 1
      = !![0, 3, 5; 3, 4, 7; 5, 7, 9] := by
    ext r k
    rw [strain_entry]
    fin_cases r <;> fin_cases k <;> norm_num [Fin.ext_iff]
  have hT : (!![0, 3, 5; 3, 4, 7; 5, 7, 9] : Matrix3 ℚ).trace = 13 := by
    rw [Matrix.trace, Fin.sum_univ_three]
    norm_num
  refine ⟨rfl, rfl, rfl, by decide, _,
    DoUpdateCache_closed_form sampleF sampleCache1 1 rfl rfl rfl (by decide), ?_, ?_, ?_, ?_⟩
  · simp only [sampleF, List.take_succ_cons, List.take_zero, List.map_cons, List.map_nil, hE]
  · simp only [sampleF, List.take_succ_cons, List.take_zero, List.map_cons, List.map_nil, hE,
      hT]
  · simp only [sampleF, sampleCache1, List.take_succ_cons, List.take_zero, List.map_cons,
      List.map_nil, hE]
    intro h
    have h01 := congrFun (congrFun (List.cons.inj h).1 0) 1
    norm_num at h01
  · simp only [sampleF, sampleCache1, List.take_succ_cons, List.take_zero, List.map_cons,
      List.map_nil, hE, hT]
    norm_num

/-- C6, amended.  The update makes no length check of its own: on a cache
whose two arrays have the length of the quadrature-point count `n`, an input
longer than `n` is accepted, the update completes normally and stores the
strain and trace of the first `n` matrices, the others being ignored. -/
theorem C6_no_length_check [Field T] (n : Nat) (c : LinearElasticityModelCache T)
    (F : List (Matrix3 T)) (hn : c.num_quads = (n : Int)) (hs : c.strain_.length = n)
    (ht : c.trace_strain_.length = n) (hF : n < F.length) :
    DoUpdateCache F c = .ok
      { num_quads := (n : Int)
        strain_ := (F.take n).map (fun M => (0.5 : T) • (M + M.transpose) - 1)
        trace_strain_ :=
          (F.take n).map (fun M => ((0.5 : T) • (M + M.transpose) - 1).trace) } := by
  rw [DoUpdateCache_closed_form F c n hn hs ht (by omega), hn]

/-- Witness of the amended C6 at the one-point cache and the sample input of
length two. -/
theorem C6_no_length_check_witness :
    (sampleCache1.num_quads = ((1 : Nat) : Int) ∧ sampleCache1.strain_.length = 1 ∧
      sampleCache1.trace_strain_.length = 1 ∧ 1 < sampleF.length) ∧
    DoUpdateCache sampleF sampleCache1 = .ok
      { num_quads := ((1 : Nat) : Int)
        strain_ := (sampleF.take 1).map (fun M => (0.5 : ℚ) • (M + M.transpose) - 1)
        trace_strain_ :=
          (sampleF.take 1).map (fun M => ((0.5 : ℚ) • (M + M.transpose) - 1).trace) } :=
  ⟨⟨rfl, rfl, rfl, by decide⟩,
    C6_no_length_check 1 sampleCache1 sampleF rfl rfl rfl (by decide)⟩

/-- C7. The update overwrites the cache in full.  Two caches with the same
quadrature-point count and arbitrary earlier contents hold the same strain and
trace arrays after the update with the same valid `F`; applying the update a
second time changes nothing; and after an update with `G` followed by an
update with `F` the cache is the one the update with `F` alone produces. -/
theorem C7_full_overwrite [Field T] (n : Nat) (c c' : LinearElasticityModelCache T)
    (F G : List (Matrix3 T))
    (hn : c.num_quads = (n : Int)) (hs : c.strain_.length = n)
    (ht : c.trace_strain_.length = n)
    (hn' : c'.num_quads = (n : Int)) (hs' : c'.strain_.length = n)
    (ht' : c'.trace_strain_.length = n)
    (hF : F.length = n) (hG : G.length = n) :
    (∃ d d', DoUpdateCache F c = .ok d ∧ DoUpdateCache F c' = .ok d' ∧
      d.strain_ = d'.strain_ ∧ d.trace_strain_ = d'.trace_strain_) ∧
    (∃ d, DoUpdateCache F c = .ok d ∧ DoUpdateCache F d = .ok d) ∧
    (∃ e d, DoUpdateCache G c = .ok e ∧ DoUpdateCache F e = .ok d ∧
      DoUpdateCache F c = .ok d) := by
  have hc := DoUpdateCache_valid F c n hn hs ht hF
  have hc' := DoUpdateCache_valid F c' n hn' hs' ht' hF
  have hg := DoUpdateCache_valid G c n hn hs ht hG
  refine ⟨⟨_, _, hc, hc', rfl, rfl⟩, ⟨_, hc, ?_⟩, ⟨_, _, hg, ?_, hc⟩⟩
  · exact DoUpdateCache_valid F _ n hn (by simp only [List.length_map, hF])
      (by simp only [List.length_map, hF]) hF
  · exact DoUpdateCache_valid F _ n hn (by simp only [List.length_map, hG])
      (by simp only [List.length_map, hG]) hF

/-- Witness of C7: the two sample caches of two points, the sample input, and
two identity matrices as the earlier input. -/
theorem C7_full_overwrite_witness :
    (sampleCache.num_quads = ((2 : Nat) : Int) ∧ sampleCache.strain_.length = 2 ∧
      sampleCache.trace_strain_.length = 2 ∧
      sampleCache2.num_quads = ((2 : Nat) : Int) ∧ sampleCache2.strain_.length = 2 ∧
      sampleCache2.trace_strain_.length = 2 ∧
      sampleF.length = 2 ∧ ([1, 1] : List (Matrix3 ℚ)).length = 2) ∧
    ((∃ d d', DoUpdateCache sampleF sampleCache = .ok d ∧
      DoUpdateCache sampleF sampleCache2 = .ok d' ∧
      d.strain_ = d'.strain_ ∧ d.trace_strain_ = d'.trace_strain_) ∧
    (∃ d, DoUpdateCache sampleF sampleCache = .ok d ∧ DoUpdateCache sampleF d = .ok d) ∧
    (∃ e d, DoUpdateCache ([1, 1] : List (Matrix3 ℚ)) sampleCache = .ok e ∧
      DoUpdateCache sampleF e = .ok d ∧ DoUpdateCache sampleF sampleCache = .ok d)) :=
  ⟨⟨rfl, rfl, rfl, rfl, rfl, rfl, rfl, rfl⟩,
    C7_full_overwrite 2 sampleCache sampleCache2 sampleF [1, 1]
      rfl rfl rfl rfl rfl rfl rfl rfl⟩

/-- C10. Symmetric off-diagonal input: on a cache with one quadrature point the
update with `F = [[1,0.05,0],[0.05,1,0],[0,0,1]]` stores the strain
`[[0,0.05,0],[0.05,0,0],[0,0,0]]` and the trace `0` (scalars of an exact field
of characteristic zero). -/
theorem C10_symmetric_shear [Field T] [CharZero T] (c : LinearElasticityModelCache T)
    (hn : c.num_quads = 1) (hs : c.strain_.length = 1) (ht : c.trace_strain_.length = 1) :
    ∃ c1, DoUpdateCache [(!![1, 0.05, 0; 0.05, 1, 0; 0, 0, 1] : Matrix3 T)] c = .ok c1 ∧
      c1.strain_ = [!![0, 0.05, 0; 0.05, 0, 0; 0, 0, 0]] ∧ c1.trace_strain_ = [0] := by
  have hE : (0.5 : T) • ((!![1, 0.05, 0; 0.05, 1, 0; 0, 0, 1] : Matrix3 T)
      + (!![1, 0.05, 0; 0.05, 1, 0; 0, 0, 1] : Matrix3 T).transpose) - 1
      = !![0, 0.05, 0; 0.05, 0, 0; 0, 0, 0] := by
    ext r k
    rw [strain_entry]
    fin_cases r <;> fin_cases k <;> norm_num [Fin.ext_iff]
  have hT : (!![0, 0.05, 0; 0.05, 0, 0; 0, 0, 0] : Matrix3 T).trace = 0 := by
    rw [Matrix.trace, Fin.sum_univ_three]
    norm_num [Matrix.vecHead, Matrix.vecTail]
  refine ⟨_, DoUpdateCache_valid _ c 1 (by rw [hn]; rfl) hs ht rfl, ?_, ?_⟩
  · simp only [List.map_cons, List.map_nil, hE]
  · simp only [List.map_cons, List.map_nil, hE, hT]

/-- Witness of C10 over the rationals at the one-point sample cache. -/
theorem C10_symmetric_shear_witness :
    (sampleCache1.num_quads = 1 ∧ sampleCache1.strain_.length = 1 ∧
      sampleCache1.trace_strain_.length = 1) ∧
    ∃ c1, DoUpdateCache [(!![1, 0.05, 0; 0.05, 1, 0; 0, 0, 1] : Matrix3 ℚ)] sampleCache1
        = .ok c1 ∧
      c1.strain_ = [!![0, 0.05, 0; 0.05, 0, 0; 0, 0, 0]] ∧ c1.trace_strain_ = [0] :=
  ⟨⟨rfl, rfl, rfl⟩, C10_symmetric_shear sampleCache1 rfl rfl rfl⟩

/-- C11. The cached strain is the symmetric part of the displacement gradient:
at every quadrature point of a valid update the stored strain is
`0.5 * ((F[i] - I) + transpose(F[i] - I))` (scalars of an exact field of
characteristic zero). -/
theorem C11_symmetric_part_of_displacement_gradient [Field T] [CharZero T] (n : Nat)
    (c : LinearElasticityModelCache T) (F : List (Matrix3 T))
    (hn : c.num_quads = (n : Int)) (hs : c.strain_.length = n)
    (ht : c.trace_strain_.length = n) (hF : F.length = n) :
    ∃ c1, DoUpdateCache F c = .ok c1 ∧
      ∀ i, i < n → ∃ Fi E, F[i]? = some Fi ∧ c1.strain_[i]? = some E ∧
        E = (0.5 : T) • ((Fi - 1) + (Fi - 1).transpose) := by
  refine ⟨_, DoUpdateCache_valid F c n hn hs ht hF, ?_⟩
  intro i hi
  have hFi : F[i]? = some F[i] := List.getElem?_eq_getElem (by omega)
  refine ⟨F[i], (0.5 : T) • (F[i] + F[i].transpose) - 1, hFi, ?_, ?_⟩
  · simp only [List.getElem?_map, hFi, Option.map_some']
  · ext r k
    rw [strain_entry]
    simp only [Matrix.smul_apply, Matrix.add_apply, Matrix.sub_apply, Matrix.transpose_apply,
      Matrix.one_apply, smul_eq_mul, half_eq]
    by_cases h : r = k
    · subst h
      rw [if_pos rfl]
      ring
    · rw [if_neg h, if_neg (fun h1 => h h1.symm)]
      ring

/-- Witness of C11 over the rationals at the sample cache and the sample
input. -/
theorem C11_symmetric_part_of_displacement_gradient_witness :
    (sampleCache.num_quads = ((2 : Nat) : Int) ∧ sampleCache.strain_.length = 2 ∧
      sampleCache.trace_strain_.length = 2 ∧ sampleF.length = 2) ∧
    ∃ c1, DoUpdateCache sampleF sampleCache = .ok c1 ∧
      ∀ i, i < 2 → ∃ Fi E, sampleF[i]? = some Fi ∧ c1.strain_[i]? = some E ∧
        E = (0.5 : ℚ) • ((Fi - 1) + (Fi - 1).transpose) :=
  ⟨⟨rfl, rfl, rfl, rfl⟩,
    C11_symmetric_part_of_displacement_gradient 2 sampleCache sampleF rfl rfl rfl rfl⟩

/-- C12. No dependency across points: for two valid inputs `F` and `F'` and an
index `i < n` at which they hold the same matrix, the two updates, started from
any two caches of size `n`, store the same strain and the same trace at `i`. -/
theorem C12_no_cross_point_dependency [Field T] (n : Nat)
    (c c' : LinearElasticityModelCache T) (F F' : List (Matrix3 T))
    (hn : c.num_quads = (n : Int)) (hs : c.strain_.length = n)
    (ht : c.trace_strain_.length = n)
    (hn' : c'.num_quads = (n : Int)) (hs' : c'.strain_.length = n)
    (ht' : c'.trace_strain_.length = n)
    (hF : F.length = n) (hF' : F'.length = n) :
    ∃ d d', DoUpdateCache F c = .ok d ∧ DoUpdateCache F' c' = .ok d' ∧
      ∀ i, i < n → F[i]? = F'[i]? →
        ∃ E t, d.strain_[i]? = some E ∧ d'.strain_[i]? = some E ∧
          d.trace_strain_[i]? = some t ∧ d'.trace_strain_[i]? = some t := by
  refine ⟨_, _, DoUpdateCache_valid F c n hn hs ht hF,
    DoUpdateCache_valid F' c' n hn' hs' ht' hF', ?_⟩
  intro i hi hEq
  have hFi : F[i]? = some F[i] := List.getElem?_eq_getElem (by omega)
  have hFi' : F'[i]? = some F[i] := by rw [← hEq, hFi]
  refine ⟨(0.5 : T) • (F[i] + F[i].transpose) - 1,
    ((0.5 : T) • (F[i] + F[i].transpose) - 1).trace, ?_, ?_, ?_, ?_⟩
  · simp only [List.getElem?_map, hFi, Option.map_some']
  · simp only [List.getElem?_map, hFi', Option.map_some']
  · simp only [List.getElem?_map, hFi, Option.map_some']
  · simp only [List.getElem?_map, hFi', Option.map_some']

/-- Witness of C12: the sample input and an input that differs from it at
index `0` only, on the two sample caches. -/
theorem C12_no_cross_point_dependency_witness :
    (sampleCache.num_quads = ((2 : Nat) : Int) ∧ sampleCache.strain_.length = 2 ∧
      sampleCache.trace_strain_.length = 2 ∧
      sampleCache2.num_quads = ((2 : Nat) : Int) ∧ sampleCache2.strain_.length = 2 ∧
      sampleCache2.trace_strain_.length = 2 ∧
      sampleF.length = 2 ∧ sampleG.length = 2) ∧
    ∃ d d', DoUpdateCache sampleF sampleCache = .ok d ∧
      DoUpdateCache sampleG sampleCache2 = .ok d' ∧
      ∀ i, i < 2 → sampleF[i]? = sampleG[i]? →
        ∃ E t, d.strain_[i]? = some E ∧ d'.strain_[i]? = some E ∧
          d.trace_strain_[i]? = some t ∧ d'.trace_strain_[i]? = some t :=
  ⟨⟨rfl, rfl, rfl, rfl, rfl, rfl, rfl, rfl⟩,
    C12_no_cross_point_dependency 2 sampleCache sampleCache2 sampleF sampleG
      rfl rfl rfl rfl rfl rfl rfl rfl⟩

/-- C14. On a cache with quadrature-point count `n` whose two arrays have
length `n` and an input of length `n`, the loop runs its body exactly `n`
times, at the indices `0, 1, ..., n - 1` in this order, each of them in range
of `F`, `strain_` and `trace_strain_`, and the update completes: it has no
error result. -/
theorem C14_terminates_in_bounds [Field T] (n : Nat)
    (c : LinearElasticityModelCache T) (F : List (Matrix3 T))
    (hn : c.num_quads = (n : Int)) (hs : c.strain_.length = n)
    (ht : c.trace_strain_.length = n) (hF : F.length = n) :
    (DoUpdateCache.loopTrace F 0 c).2 = DoUpdateCache F c ∧
    (DoUpdateCache.loopTrace F 0 c).1 = List.range n ∧
    (DoUpdateCache.loopTrace F 0 c).1.length = n ∧
    (∀ i, i ∈ (DoUpdateCache.loopTrace F 0 c).1 →
      i < F.length ∧ i < c.strain_.length ∧ i < c.trace_strain_.length) ∧
    (∃ c1, DoUpdateCache F c = .ok c1) ∧
    ∀ e, DoUpdateCache F c ≠ .error e := by
  have hres : (DoUpdateCache.loopTrace F 0 c).2 = DoUpdateCache F c :=
    loopTrace_result F _ 0 c rfl
  have hrec : (DoUpdateCache.loopTrace F 0 c).1 = List.range n := by
    rw [loopTrace_in_range F n 0 c (by rw [hn, Nat.zero_add]) (by omega) (by omega)
      (by omega), List.range_eq_range']
  have hok := DoUpdateCache_valid F c n hn hs ht hF
  refine ⟨hres, hrec, ?_, ?_, ⟨_, hok⟩, ?_⟩
  · rw [hrec, List.length_range]
  · intro i hi
    rw [hrec, List.mem_range] at hi
    omega
  · intro e he
    rw [hok] at he
    cases he

/-- Witness of C14 at the sample cache and the sample input. -/
theorem C14_terminates_in_bounds_witness :
    (sampleCache.num_quads = ((2 : Nat) : Int) ∧ sampleCache.strain_.length = 2 ∧
      sampleCache.trace_strain_.length = 2 ∧ sampleF.length = 2) ∧
    ((DoUpdateCache.loopTrace sampleF 0 sampleCache).2 = DoUpdateCache sampleF sampleCache ∧
    (DoUpdateCache.loopTrace sampleF 0 sampleCache).1 = List.range 2 ∧
    (DoUpdateCache.loopTrace sampleF 0 sampleCache).1.length = 2 ∧
    (∀ i, i ∈ (DoUpdateCache.loopTrace sampleF 0 sampleCache).1 →
      i < sampleF.length ∧ i < sampleCache.strain_.length ∧
        i < sampleCache.trace_strain_.length) ∧
    (∃ c1, DoUpdateCache sampleF sampleCache = .ok c1) ∧
    ∀ e, DoUpdateCache sampleF sampleCache ≠ .error e) :=
  ⟨⟨rfl, rfl, rfl, rfl⟩, C14_terminates_in_bounds 2 sampleCache sampleF rfl rfl rfl rfl⟩

/-! ## Identities of exact arithmetic

The statements of this section hold for scalars with exact field arithmetic.
Their proofs use associativity and distributivity of the scalar operations, or
the exact value of a decimal literal, which a rounding scalar type does not
offer.  They describe the algorithm over exact scalars and say nothing about
its instantiation for `double`. -/

/-- In exact arithmetic the strain the update stores for `F` minus the strain it stores for
`G` is the symmetrisation of the gradient difference,
`0.5 * ((F - G) + transpose(F - G))`, at every quadrature point of two valid
updates. -/
theorem exact_strain_difference [Field T] (n : Nat) (c c' : LinearElasticityModelCache T)
    (Fs Gs : List (Matrix3 T))
    (hn : c.num_quads = (n : Int)) (hs : c.strain_.length = n)
    (ht : c.trace_strain_.length = n)
    (hn' : c'.num_quads = (n : Int)) (hs' : c'.strain_.length = n)
    (ht' : c'.trace_strain_.length = n)
    (hF : Fs.length = n) (hG : Gs.length = n) :
    ∃ d d', DoUpdateCache Fs c = .ok d ∧ DoUpdateCache Gs c' = .ok d' ∧
      ∀ i, i < n → ∃ F G EF EG, Fs[i]? = some F ∧ Gs[i]? = some G ∧
        d.strain_[i]? = some EF ∧ d'.strain_[i]? = some EG ∧
        EF - EG = (0.5 : T) • ((F - G) + (F - G).transpose) := by
  refine ⟨_, _, DoUpdateCache_valid Fs c n hn hs ht hF,
    DoUpdateCache_valid Gs c' n hn' hs' ht' hG, ?_⟩
  intro i hi
  have hFi : Fs[i]? = some Fs[i] := List.getElem?_eq_getElem (by omega)
  have hGi : Gs[i]? = some Gs[i] := List.getElem?_eq_getElem (by omega)
  refine ⟨Fs[i], Gs[i], (0.5 : T) • (Fs[i] + Fs[i].transpose) - 1,
    (0.5 : T) • (Gs[i] + Gs[i].transpose) - 1, hFi, hGi, ?_, ?_, ?_⟩
  · simp only [List.getElem?_map, hFi, Option.map_some']
  · simp only [List.getElem?_map, hGi, Option.map_some']
  · ext r k
    simp only [Matrix.sub_apply, Matrix.smul_apply, Matrix.add_apply, Matrix.transpose_apply,
      smul_eq_mul]
    ring

/-- An instance over the rationals: the sample input on one sample cache and two identity
matrices on the other. -/
theorem exact_strain_difference_instance :
    (sampleCache.num_quads = ((2 : Nat) : Int) ∧ sampleCache.strain_.length = 2 ∧
      sampleCache.trace_strain_.length = 2 ∧
      sampleCache2.num_quads = ((2 : Nat) : Int) ∧ sampleCache2.strain_.length = 2 ∧
      sampleCache2.trace_strain_.length = 2 ∧
      sampleF.length = 2 ∧ ([1, 1] : List (Matrix3 ℚ)).length = 2) ∧
    ∃ d d', DoUpdateCache sampleF sampleCache = .ok d ∧
      DoUpdateCache ([1, 1] : List (Matrix3 ℚ)) sampleCache2 = .ok d' ∧
      ∀ i, i < 2 → ∃ F G EF EG, sampleF[i]? = some F ∧
        ([1, 1] : List (Matrix3 ℚ))[i]? = some G ∧
        d.strain_[i]? = some EF ∧ d'.strain_[i]? = some EG ∧
        EF - EG = (0.5 : ℚ) • ((F - G) + (F - G).transpose) :=
  ⟨⟨rfl, rfl, rfl, rfl, rfl, rfl, rfl, rfl⟩,
    exact_strain_difference 2 sampleCache sampleCache2 sampleF [1, 1]
      rfl rfl rfl rfl rfl rfl rfl rfl⟩

/-- Uniaxial stretch in exact arithmetic: on a cache with one quadrature point the update with
`F = [[1.1,0,0],[0,1,0],[0,0,1]]` stores the strain
`[[0.1,0,0],[0,0,0],[0,0,0]]` and the trace `0.1` (scalars of an exact field of
characteristic zero). -/
theorem exact_uniaxial_stretch [Field T] [CharZero T] (c : LinearElasticityModelCache T)
    (hn : c.num_quads = 1) (hs : c.strain_.length = 1) (ht : c.trace_strain_.length = 1) :
    ∃ c1, DoUpdateCache [(!![1.1, 0, 0; 0, 1, 0; 0, 0, 1] : Matrix3 T)] c = .ok c1 ∧
      c1.strain_ = [!![0.1, 0, 0; 0, 0, 0; 0, 0, 0]] ∧ c1.trace_strain_ = [0.1] := by
  have hE : (0.5 : T) • ((!![1.1, 0, 0; 0, 1, 0; 0, 0, 1] : Matrix3 T)
      + (!![1.1, 0, 0; 0, 1, 0; 0, 0, 1] : Matrix3 T).transpose) - 1
      = !![0.1, 0, 0; 0, 0, 0; 0, 0, 0] := by
    ext r k
    rw [strain_entry]
    fin_cases r <;> fin_cases k <;> norm_num [Fin.ext_iff]
  have hT : (!![0.1, 0, 0; 0, 0, 0; 0, 0, 0] : Matrix3 T).trace = 0.1 := by
    rw [Matrix.trace, Fin.sum_univ_three]
    norm_num [Matrix.vecHead, Matrix.vecTail]
  refine ⟨_, DoUpdateCache_valid _ c 1 (by rw [hn]; rfl) hs ht rfl, ?_, ?_⟩
  · simp only [List.map_cons, List.map_nil, hE]
  · simp only [List.map_cons, List.map_nil, hE, hT]

/-- An instance over the rationals at the one-point sample cache. -/
theorem exact_uniaxial_stretch_instance :
    (sampleCache1.num_quads = 1 ∧ sampleCache1.strain_.length = 1 ∧
      sampleCache1.trace_strain_.length = 1) ∧
    ∃ c1, DoUpdateCache [(!![1.1, 0, 0; 0, 1, 0; 0, 0, 1] : Matrix3 ℚ)] sampleCache1
        = .ok c1 ∧
      c1.strain_ = [!![0.1, 0, 0; 0, 0, 0; 0, 0, 0]] ∧ c1.trace_strain_ = [0.1] :=
  ⟨⟨rfl, rfl, rfl⟩, exact_uniaxial_stretch sampleCache1 rfl rfl rfl⟩

/-- Closed form of the cached trace in exact arithmetic: at every quadrature point of a valid
update the stored trace is the sum of the three diagonal entries of `F[i]`
minus three; no entry of `F[i]` off the diagonal occurs in it (scalars of an
exact field of characteristic zero). -/
theorem exact_trace_closed_form [Field T] [CharZero T] (n : Nat)
    (c : LinearElasticityModelCache T) (F : List (Matrix3 T))
    (hn : c.num_quads = (n : Int)) (hs : c.strain_.length = n)
    (ht : c.trace_strain_.length = n) (hF : F.length = n) :
    ∃ c1, DoUpdateCache F c = .ok c1 ∧
      ∀ i, i < n → ∃ Fi, F[i]? = some Fi ∧
        c1.trace_strain_[i]? = some (Fi 0 0 + Fi 1 1 + Fi 2 2 - 3) := by
  refine ⟨_, DoUpdateCache_valid F c n hn hs ht hF, ?_⟩
  intro i hi
  have hFi : F[i]? = some F[i] := List.getElem?_eq_getElem (by omega)
  refine ⟨F[i], hFi, ?_⟩
  simp only [List.getElem?_map, hFi, Option.map_some']
  congr 1
  rw [Matrix.trace, Fin.sum_univ_three]
  simp only [Matrix.diag_apply, strain_entry, if_true]
  ring

/-- An instance over the rationals at the sample cache and the sample
input. -/
theorem exact_trace_closed_form_instance :
    (sampleCache.num_quads = ((2 : Nat) : Int) ∧ sampleCache.strain_.length = 2 ∧
      sampleCache.trace_strain_.length = 2 ∧ sampleF.length = 2) ∧
    ∃ c1, DoUpdateCache sampleF sampleCache = .ok c1 ∧
      ∀ i, i < 2 → ∃ Fi, sampleF[i]? = some Fi ∧
        c1.trace_strain_[i]? = some (Fi 0 0 + Fi 1 1 + Fi 2 2 - 3) :=
  ⟨⟨rfl, rfl, rfl, rfl⟩, exact_trace_closed_form 2 sampleCache sampleF rfl rfl rfl rfl⟩

/-- In exact arithmetic the cached strain ignores the skew-symmetric part of
the deformation gradient: adding to every `F[i]` a matrix `W[i]` with
`transpose(W[i]) = -W[i]` leaves the stored strain and trace arrays as they are
for `F`, and so does replacing every `F[i]` by its transpose. -/
theorem exact_skew_part_ignored [Field T] (n : Nat)
    (c : LinearElasticityModelCache T) (F W : List (Matrix3 T))
    (hn : c.num_quads = (n : Int)) (hs : c.strain_.length = n)
    (ht : c.trace_strain_.length = n) (hF : F.length = n) (hW : W.length = n)
    (hskew : ∀ M, M ∈ W → M.transpose = -M) :
    ∃ d dW dT, DoUpdateCache F c = .ok d ∧
      DoUpdateCache (List.zipWith (fun A B => A + B) F W) c = .ok dW ∧
      DoUpdateCache (F.map Matrix.transpose) c = .ok dT ∧
      dW.strain_ = d.strain_ ∧ dW.trace_strain_ = d.trace_strain_ ∧
      dT.strain_ = d.strain_ ∧ dT.trace_strain_ = d.trace_strain_ := by
  have hz : (List.zipWith (fun A B => A + B) F W).length = n := by
    rw [List.length_zipWith, hF, hW, Nat.min_self]
  have hm : (F.map Matrix.transpose).length = n := by rw [List.length_map, hF]
  have key : ∀ (Fs Ws : List (Matrix3 T)), Fs.length = Ws.length →
      (∀ M, M ∈ Ws → M.transpose = -M) →
      (List.zipWith (fun A B => A + B) Fs Ws).map
          (fun M => (0.5 : T) • (M + M.transpose) - 1)
        = Fs.map (fun M => (0.5 : T) • (M + M.transpose) - 1) := by
    intro Fs
    induction Fs with
    | nil => intro Ws _ _; rfl
    | cons A Fs ih =>
      intro Ws hl hsk
      cases Ws with
      | nil => simp at hl
      | cons B Ws =>
        have hB : B.transpose = -B := hsk B (List.mem_cons_self B Ws)
        have hA : (A + B) + (A + B).transpose = A + A.transpose := by
          rw [Matrix.transpose_add, hB]
          abel
        simp only [List.zipWith_cons_cons, List.map_cons, hA]
        rw [ih Ws (by simpa using hl) (fun M hM => hsk M (List.mem_cons_of_mem B hM))]
  have keyT : (F.map Matrix.transpose).map (fun M => (0.5 : T) • (M + M.transpose) - 1)
      = F.map (fun M => (0.5 : T) • (M + M.transpose) - 1) := by
    rw [List.map_map]
    apply List.map_congr_left
    intro M _
    simp only [Function.comp_apply, Matrix.transpose_transpose, add_comm M.transpose M]
  have hmap : ∀ (L : List (Matrix3 T)),
      L.map (fun M => ((0.5 : T) • (M + M.transpose) - 1).trace)
        = (L.map (fun M => (0.5 : T) • (M + M.transpose) - 1)).map Matrix.trace := by
    intro L
    rw [List.map_map]
    rfl
  refine ⟨_, _, _, DoUpdateCache_valid F c n hn hs ht hF,
    DoUpdateCache_valid _ c n hn hs ht hz, DoUpdateCache_valid _ c n hn hs ht hm,
    ?_, ?_, ?_, ?_⟩
  · exact key F W (by rw [hF, hW]) hskew
  · show List.map _ _ = List.map _ _
    rw [hmap, hmap, key F W (by rw [hF, hW]) hskew]
  · exact keyT
  · show List.map _ _ = List.map _ _
    rw [hmap, hmap, keyT]

/-- An instance over the rationals: the sample input and two skew-symmetric
matrices, the second of them zero. -/
theorem exact_skew_part_ignored_instance :
    (sampleCache.num_quads = ((2 : Nat) : Int) ∧ sampleCache.strain_.length = 2 ∧
      sampleCache.trace_strain_.length = 2 ∧ sampleF.length = 2 ∧ sampleW.length = 2 ∧
      ∀ M, M ∈ sampleW → M.transpose = -M) ∧
    ∃ d dW dT, DoUpdateCache sampleF sampleCache = .ok d ∧
      DoUpdateCache (List.zipWith (fun A B => A + B) sampleF sampleW) sampleCache = .ok dW ∧
      DoUpdateCache (sampleF.map Matrix.transpose) sampleCache = .ok dT ∧
      dW.strain_ = d.strain_ ∧ dW.trace_strain_ = d.trace_strain_ ∧
      dT.strain_ = d.strain_ ∧ dT.trace_strain_ = d.trace_strain_ :=
  ⟨⟨rfl, rfl, rfl, rfl, rfl, sampleW_skew⟩,
    exact_skew_part_ignored 2 sampleCache sampleF sampleW rfl rfl rfl rfl rfl sampleW_skew⟩

end fem
end multibody
end drake
